import Mathlib

/-!
Shallow embedding of `modules/gui/skins2/controls/ctrl_tree.cpp` (class
`CtrlTree`), the virtualized scrollable tree/list control, together with the
parts of its model collaborator (`VarTree`) that the control's behaviour
depends on.  The model collaborator itself is not part of the sources, so its
traversal primitives are modelled from the specification (flat mode: the
leaves in document order; hierarchical mode: depth-first pre-order over items
reachable through expanded ancestors).  Machine floating point is modelled by
exact rationals, `lrint` by round-to-nearest-ties-to-even, and C integer
division by `Int.tdiv` (truncation towards zero).
-/

/-- One item of the playlist model: a stable id plus the per-item flags the
control reads and writes (the payload of a `VarTree` node). -/
structure ItemData where
  id : Nat
  selected : Bool
  expanded : Bool
  deleted : Bool
  playing : Bool
  deriving DecidableEq

/-- placeholder item used by the total indexing function `itemAt`; never the
result of an in-range lookup. -/
def noItem : ItemData :=
  { id := 0, selected := false, expanded := false, deleted := false, playing := false }

/-- item of the participating traversal at 0-based index `i`. -/
def itemAt (vis : List ItemData) (i : Nat) : ItemData :=
  vis.getD i noItem

/-- round to nearest, ties to even: model of C `lrint` under the default
rounding mode, applied to exact rational values. -/
def lrintQ (q : ℚ) : ℤ :=
  if q - ⌊q⌋ < 1/2 then ⌊q⌋
  else if 1/2 < q - ⌊q⌋ then ⌊q⌋ + 1
  else if ⌊q⌋ % 2 = 0 then ⌊q⌋ else ⌊q⌋ + 1

/-- Modelled from the spec: `VarTree::getLeaf` / `VarTree::getVisibleItem`
(the model collaborator is missing from the sources).  The participating
traversal being a list of length `n`, `getLeafIdx n k` is the 0-based index
of the item of 1-based rank `k`; an out-of-range rank yields `n`, standing
for the end iterator. -/
def getLeafIdx (n : ℕ) (k : ℤ) : ℕ :=
  if 1 ≤ k ∧ k ≤ (n : ℤ) then (k - 1).toNat else n

/-- `CtrlTree::onUpdate(Subject<VarPercent>&, void*)`: reaction to a change
of the position signal.  Arguments: number of participating items
(`countLeafs()` resp. `visibleItems()`), `maxItems()`, the re-entrancy guard
`m_dontMove`, the current anchor `m_firstPos` and the new signal value.
Returns the new anchor as a 0-based index into the participating traversal
(`count` standing for the end iterator). -/
def onUpdatePosition (count : ℕ) (maxI : ℤ) (dontMove : Bool) (oldFirst : ℕ)
    (v : ℚ) : ℕ :=
  if dontMove then oldFirst
  else
    let excess : ℤ := (count : ℤ) - maxI
    if 0 < excess then getLeafIdx count (lrintQ ((1 - v) * (excess : ℚ)) + 1)
    else 0

/-- walk of the DeleteItem branch of `CtrlTree::onUpdate(Subject<VarTree,
tree_update>&, tree_update*)`: starting from the anchor, step to the previous
participating item while the current one is deleted and the traversal start
(index 0) has not been reached. -/
def walkBack (vis : List ItemData) : ℕ → ℕ
  | 0 => 0
  | n + 1 => if (itemAt vis (n + 1)).deleted then walkBack vis n else n + 1

/-- DeleteItem branch of `CtrlTree::onUpdate(Subject<VarTree, tree_update>&,
tree_update*)`: revalidation of `m_firstPos` after an item-delete
notification; when the walk stops on a still-deleted item (the traversal
start), the anchor is reset to `m_rTree.begin()`, index 0 of the traversal
(hierarchical mode; in flat mode over a root-level list of leaves `begin()`
coincides with `firstLeaf()`). -/
def fixFirstPos (vis : List ItemData) (first : ℕ) : ℕ :=
  if (itemAt vis (walkBack vis first)).deleted then 0 else walkBack vis first

/-- single-item traversal whose only item — the traversal start — is
deleted. -/
def delListC2 : List ItemData :=
  [{ id := 1, selected := false, expanded := false, deleted := true, playing := false }]

/-- two-item traversal: a live item followed by a deleted one. -/
def visW2 : List ItemData :=
  [{ id := 1, selected := false, expanded := false, deleted := false, playing := false },
   { id := 2, selected := false, expanded := false, deleted := true, playing := false }]

/-- scan of the KEY_DELETE branch of `CtrlTree::handleEvent` computing
`it_sel`: the last not-selected item strictly before `m_pLastSelected` in
traversal order, the traversal start `cur` when there is none. -/
def itSelGo (cur : ItemData) (lastSel : Option ℕ) : List ItemData → ItemData
  | [] => cur
  | x :: rest =>
    if some x.id = lastSel then cur
    else itSelGo (if x.selected then cur else x) lastSel rest

/-- scan of the KEY_DELETE branch recomputing `m_pLastSelected`: the last
still-selected item of the traversal, if any. -/
def lastSelectedScan (xs : List ItemData) : Option ItemData :=
  xs.foldl (fun acc i => if i.selected then some i else acc) none

/-- Modelled from the spec: `VarTree::delSelected` (the model collaborator is
missing from the sources) removes every selected item from the model. -/
def delSelected (xs : List ItemData) : List ItemData :=
  xs.filter (fun i => !i.selected)

/-- KEY_DELETE branch of `CtrlTree::handleEvent`: compute `it_sel`, delete
the selection, rescan for a surviving selected item, and failing that
force-select `it_sel` (in the C++ through a by-then possibly dangling
iterator; here a write through the stable id, which is a no-op when the item
was removed).  Returns the new model and the new `m_pLastSelected` id. -/
def keyDelete : List ItemData → Option ℕ → List ItemData × Option ℕ
  | [], lastSel => ([], lastSel)
  | x :: rest, lastSel =>
    let tSel := itSelGo x lastSel (x :: rest)
    let surv := delSelected (x :: rest)
    match lastSelectedScan surv with
    | some y => (surv, some y.id)
    | none =>
      (surv.map (fun i => if i.id = tSel.id then { i with selected := true } else i),
        some tSel.id)

/-- model on which KEY_DELETE strands the selection: two selected items (the
second being `m_pLastSelected`) followed by an unselected one. -/
def delInputC3 : List ItemData :=
  [{ id := 1, selected := true, expanded := false, deleted := false, playing := false },
   { id := 2, selected := true, expanded := false, deleted := false, playing := false },
   { id := 3, selected := false, expanded := false, deleted := false, playing := false }]

mutual
/-- a node of the hierarchical model: payload plus ordered children. -/
inductive VTree where
  | node : ItemData → VForest → VTree
/-- an ordered sequence of sibling subtrees; the whole model is the forest of
the root's children (`m_rTree.begin()` being the first of them). -/
inductive VForest where
  | nil : VForest
  | cons : VTree → VForest → VForest
end

mutual
/-- Modelled from the spec: whether the node with id `i` occurs in the
subtree. -/
def containsId : VTree → ℕ → Bool
  | .node d cs, i => d.id == i || containsIdL cs i
/-- Modelled from the spec: whether the node with id `i` occurs in the
forest. -/
def containsIdL : VForest → ℕ → Bool
  | .nil, _ => false
  | .cons c cs, i => containsId c i || containsIdL cs i
end

mutual
/-- Modelled from the spec: `VarTree::ensureExpanded` — force-expand every
proper ancestor of the node with id `i`, i.e. every node having `i` strictly
below it. -/
def ensExp : VTree → ℕ → VTree
  | .node d cs, i =>
    .node { d with expanded := d.expanded || containsIdL cs i } (ensExpL cs i)
/-- `ensExp` mapped over a forest. -/
def ensExpL : VForest → ℕ → VForest
  | .nil, _ => .nil
  | .cons c cs, i => .cons (ensExp c i) (ensExpL cs i)
end

mutual
/-- Modelled from the spec: the hierarchical participating traversal
("visible items"): depth-first pre-order, descending only below expanded
nodes. -/
def visOf : VTree → List ItemData
  | .node d cs => d :: (if d.expanded then visOfL cs else [])
/-- participating traversal of a forest (for the root's children this is the
whole participating traversal of the model). -/
def visOfL : VForest → List ItemData
  | .nil => []
  | .cons c cs => visOf c ++ visOfL cs
end

mutual
/-- every proper ancestor of the node with id `i` is expanded. -/
def ancExp : VTree → ℕ → Bool
  | .node d cs, i =>
    if containsIdL cs i then d.expanded && ancExpL cs i else true
/-- `ancExp` over every tree of a forest. -/
def ancExpL : VForest → ℕ → Bool
  | .nil, _ => true
  | .cons c cs, i => ancExp c i && ancExpL cs i
end

/-- Modelled from the spec: `VarTree::getRank` — 1-based rank of the item
with id `i` among the participating items, by linear scan from the traversal
start (rank `length + 1`, the end, when absent; the contract only covers
participating items). -/
def rankIn (vis : List ItemData) (i : ℕ) : ℕ :=
  vis.findIdx (fun x => x.id == i) + 1

/-- outcome of `CtrlTree::ensureVisible`: the model after `ensureExpanded`,
the write to the position variable if one happened (paired with the state of
the re-entrancy guard `m_dontMove` at the moment of the write), and the
returned Bool. -/
structure EVOut where
  forest : VForest
  write : Option (Bool × ℚ)
  scrolled : Bool

/-- `CtrlTree::ensureVisible` (hierarchical mode): force-expand the item's
ancestors, then, when the item's 0-based rank index falls outside the window
`[firstPosIndex, firstPosIndex + maxItems() - 1]`, write
`1 - focusItemIndex / indexMax` to the position variable — without touching
the `m_dontMove` guard — and return true; otherwise write nothing and return
false. -/
def ensureVisible (cs : VForest) (firstId : ℕ) (maxI : ℤ) (dontMove : Bool)
    (itemId : ℕ) : EVOut :=
  let cs2 := ensExpL cs itemId
  let vis := visOfL cs2
  let firstIdx : ℤ := (rankIn vis firstId : ℤ) - 1
  let focusIdx : ℤ := (rankIn vis itemId : ℤ) - 1
  if focusIdx < firstIdx ∨ focusIdx > firstIdx + maxI - 1 then
    { forest := cs2,
      write := some (dontMove,
        1 - (focusIdx : ℚ) / ((((vis.length : ℤ) - 1 : ℤ) : ℚ))),
      scrolled := true }
  else { forest := cs2, write := none, scrolled := false }

/-- position fixup of `CtrlTree::handleEvent` run when `bChangedPosition`
is set (a node's expansion state changed): scan for the anchor's 0-based
index, set `m_dontMove`, write `1 - iFirst / indexMax` to the position
variable, and clear the guard.  Returns the write event (guard state at the
write, value written). -/
def fixupPosition (vis : List ItemData) (firstId : ℕ) : Bool × ℚ :=
  let iFirst := vis.findIdx (fun x => x.id == firstId)
  let indexMax : ℤ := (vis.length : ℤ) - 1
  (true, 1 - (iFirst : ℚ) / ((indexMax : ℤ) : ℚ))

/-- forest of five root-level leaves with ids 1..5. -/
def leaves5 : VForest :=
  .cons (.node { id := 1, selected := false, expanded := false, deleted := false,
                 playing := false } .nil)
    (.cons (.node { id := 2, selected := false, expanded := false, deleted := false,
                    playing := false } .nil)
      (.cons (.node { id := 3, selected := false, expanded := false, deleted := false,
                      playing := false } .nil)
        (.cons (.node { id := 4, selected := false, expanded := false, deleted := false,
                        playing := false } .nil)
          (.cons (.node { id := 5, selected := false, expanded := false, deleted := false,
                          playing := false } .nil) .nil))))

/-- forest of three root-level leaves with ids 1..3. -/
def leaves3 : VForest :=
  .cons (.node { id := 1, selected := false, expanded := false, deleted := false,
                 playing := false } .nil)
    (.cons (.node { id := 2, selected := false, expanded := false, deleted := false,
                    playing := false } .nil)
      (.cons (.node { id := 3, selected := false, expanded := false, deleted := false,
                      playing := false } .nil) .nil))

/-- a root-level node (id 1) with one collapsed child (id 2), plus a sibling
leaf (id 3). -/
def treeW4 : VForest :=
  .cons (.node { id := 1, selected := false, expanded := false, deleted := false,
                 playing := false }
          (.cons (.node { id := 2, selected := false, expanded := false,
                          deleted := false, playing := false } .nil) .nil))
    (.cons (.node { id := 3, selected := false, expanded := false, deleted := false,
                    playing := false } .nil) .nil)

/-- leaf item with id `i` and all flags clear. -/
def mkItem (i : ℕ) : ItemData :=
  { id := i, selected := false, expanded := false, deleted := false, playing := false }

/-- geometry- and collaborator-dependent parameters of `CtrlTree::makeImage`
(flat mode): the per-row height `itemHeight()`, the optional item-bitmap
height, and the outcome and pixel height of `GenericFont::drawString` per
item id. -/
structure RenderParams where
  itemH : ℕ
  itemBmpH : Option ℕ
  textOk : ℕ → Bool
  textH : ℕ → ℕ

/-- vertical cursor advance of one drawn row of `makeImage`:
`yPos += itemHeight - textHeight`, clip a negative overshoot into `ySrc`,
then `yPos += textHeight - ySrc`. -/
def advanceY (p : RenderParams) (x : ItemData) (y : ℤ) : ℤ :=
  let y1 := y + (p.itemH : ℤ) - (p.textH x.id : ℤ)
  let ySrc : ℤ := if y1 < 0 then -y1 else 0
  let y2 : ℤ := if y1 < 0 then 0 else y1
  y2 + ((p.textH x.id : ℤ) - ySrc)

/-- outcome of processing one row in the text loop of `makeImage`. -/
inductive RowStep where
  | stop : Bool → RowStep
  | draw : ℤ → RowStep

/-- one iteration of the text loop of `makeImage` for item `x` at vertical
cursor `y`: outside the viewport the loop ends (frame committed complete); a
failed `drawString` aborts the build (the early `return`; `stop false`); an
icon that would start below the viewport ends the loop (the `break`);
otherwise the row is drawn and the cursor advances. -/
def rowStep (p : RenderParams) (height : ℕ) (x : ItemData) (y : ℤ) : RowStep :=
  if y < (height : ℤ) then
    if p.textOk x.id then
      match p.itemBmpH with
      | some bh =>
        if (height : ℤ) ≤ y + Int.tdiv ((p.itemH : ℤ) - (bh : ℤ) + 1) 2 then
          RowStep.stop true
        else RowStep.draw (advanceY p x y)
      | none => RowStep.draw (advanceY p x y)
    else RowStep.stop false
  else RowStep.stop true

/-- the text loop of `makeImage` after the first row: the iterator has just
been advanced by the deleted-skipping do-while, so deleted items are passed
over before the next row is processed.  Returns the ids of the rows drawn
and false exactly when the build was aborted by a failed `drawString`. -/
def drawRest (p : RenderParams) (height : ℕ) : List ItemData → ℤ → List ℕ × Bool
  | [], _ => ([], true)
  | x :: rest, y =>
    if x.deleted then drawRest p height rest y
    else
      match rowStep p height x y with
      | .stop b => ([], b)
      | .draw y2 =>
        let r := drawRest p height rest y2
        (x.id :: r.1, r.2)

/-- the text loop of `makeImage`, starting at `m_firstPos` — the first row
is processed without any deleted check. -/
def drawRows (p : RenderParams) (height : ℕ) : List ItemData → ℤ → List ℕ × Bool
  | [], _ => ([], true)
  | x :: rest, y =>
    match rowStep p height x y with
    | .stop b => ([], b)
    | .draw y2 =>
      let r := drawRest p height rest y2
      (x.id :: r.1, r.2)

/-- `CtrlTree::makeImage`: the previous frame cache is destroyed first
(`delete m_pImage`, before anything is checked); without geometry the build
stops there, leaving no cache; with geometry a fresh frame is built from the
anchor suffix `xs` of the traversal and committed even when the text loop
aborted half-way (second component false). -/
def makeImage (oldImage : Option (List ℕ × Bool)) (geom : Option ℕ)
    (p : RenderParams) (xs : List ItemData) : Option (List ℕ × Bool) :=
  match geom with
  | none => none
  | some h => some (drawRows p h xs 0)

/-- `CtrlTree::findItemAtPos`: starting from `m_firstPos`, advance `pos`
times — without any deleted check — and return the item reached, `none`
standing for the end iterator. -/
def findItemAtPos : List ItemData → ℕ → Option ItemData
  | [], _ => none
  | x :: _, 0 => some x
  | _ :: rest, pos + 1 => findItemAtPos rest pos

/-- render parameters with every `drawString` succeeding. -/
def renderOkP : RenderParams :=
  { itemH := 1, itemBmpH := none, textOk := fun _ => true, textH := fun _ => 1 }

/-- render parameters where `drawString` fails for every item but id 1. -/
def renderFailP : RenderParams :=
  { itemH := 1, itemBmpH := none, textOk := fun i => i == 1, textH := fun _ => 1 }

/-- the KEY_PAGEDOWN walk of `CtrlTree::handleEvent`: from the anchor take
up to `k` forward steps (the loop counter `i = (int)(maxItems()*1.5)` runs
down to 0), reverting the last step and stopping when the end is reached;
returns the index reached and the `needShow` flag (whether any step
succeeded). -/
def stepFwd (n : ℕ) : ℕ → ℕ → ℕ × Bool
  | idx, 0 => (idx, false)
  | idx, k + 1 =>
    if n ≤ idx + 1 then (idx, false)
    else ((stepFwd n (idx + 1) k).1, true)

/-- number of iterations of the KEY_PAGEDOWN loop: the counter starts at
`(int)(maxItems() * 1.5)` (C truncation towards zero) and runs down to 0
inclusive. -/
def pagedownCount (maxI : ℤ) : ℕ :=
  (Int.tdiv (3 * maxI) 2 + 1).toNat

/-- `CtrlTree::ensureVisible` in flat mode over a traversal of `n` leaves,
phrased on the 0-based indices `getRank(..) - 1`: anchor index and target
index; same window test and write as the hierarchical version. -/
def ensureVisibleFlat (n : ℕ) (firstIdx itemIdx : ℕ) (maxI : ℤ)
    (dontMove : Bool) : Option (Bool × ℚ) × Bool :=
  if (itemIdx : ℤ) < (firstIdx : ℤ) ∨
      (itemIdx : ℤ) > (firstIdx : ℤ) + maxI - 1 then
    (some (dontMove, 1 - (itemIdx : ℚ) / ((((n : ℤ) - 1 : ℤ)) : ℚ)), true)
  else (none, false)

/-- the full KEY_PAGEDOWN reaction in flat mode: walk forward; when the walk
moved, call `ensureVisible` on the reached item, whose unguarded position
write is seen by the position handler, which recomputes the anchor. -/
def pagedownAnchor (n : ℕ) (anchorIdx : ℕ) (maxI : ℤ) : ℕ :=
  let res := stepFwd n anchorIdx (pagedownCount maxI)
  if res.2 then
    match (ensureVisibleFlat n anchorIdx res.1 maxI false).1 with
    | some (_, v) => onUpdatePosition n maxI false anchorIdx v
    | none => anchorIdx
  else anchorIdx

/-- the shift-click range loop of `CtrlTree::handleEvent`
(`mouse:left:down:shift`): one pass over the traversal with the running flag
`select`; at each of the two boundary items (`itClicked` and
`m_pLastSelected`) the flag logic opens or closes the range, and every
item's selected flag is overwritten with the flag's current value. -/
def rangeSelectGo (clickId lastSel : Option ℕ) :
    Bool → List ItemData → List ItemData
  | _, [] => []
  | sel, x :: rest =>
    let hit := clickId == some x.id || lastSel == some x.id
    let selNow := if hit then true else sel
    let next := if hit then (if sel then false else true) else sel
    { x with selected := selNow } :: rangeSelectGo clickId lastSel next rest

/-- the ctrl+shift-click range loop (`mouse:left:down:ctrl,shift`): same
boundary logic, but each item's selected flag is OR-ed with the range flag
instead of being overwritten. -/
def ctrlShiftGo (clickId lastSel : Option ℕ) :
    Bool → List ItemData → List ItemData
  | _, [] => []
  | sel, x :: rest =>
    let hit := clickId == some x.id || lastSel == some x.id
    let selNow := if hit then true else sel
    let next := if hit then (if sel then false else true) else sel
    { x with selected := x.selected || selNow }
      :: ctrlShiftGo clickId lastSel next rest

/-- shift-click branch: range-select; `m_pLastSelected` is never assigned in
this branch. -/
def shiftClickBranch (xs : List ItemData) (lastSel clickId : Option ℕ) :
    List ItemData × Option ℕ :=
  (rangeSelectGo clickId lastSel false xs, lastSel)

/-- ctrl+shift-click branch: range-toggle; `m_pLastSelected` is never
assigned in this branch. -/
def ctrlShiftClickBranch (xs : List ItemData) (lastSel clickId : Option ℕ) :
    List ItemData × Option ℕ :=
  (ctrlShiftGo clickId lastSel false xs, lastSel)

/-- ctrl-click branch: flip the hit item's selected flag and make it
`m_pLastSelected`; a miss (end iterator) changes nothing. -/
def ctrlClickBranch (xs : List ItemData) (lastSel clickId : Option ℕ) :
    List ItemData × Option ℕ :=
  match clickId with
  | none => (xs, lastSel)
  | some i =>
    (xs.map (fun x => if x.id = i then { x with selected := !x.selected } else x),
      some i)

/-- plain-click branch in flat mode (where the disclosure sub-region does
not apply): unselect every item, then select the hit item and make it
`m_pLastSelected`; a miss changes nothing. -/
def plainClickBranch (xs : List ItemData) (lastSel clickId : Option ℕ) :
    List ItemData × Option ℕ :=
  match clickId with
  | none => (xs, lastSel)
  | some i =>
    ((xs.map (fun x => { x with selected := false })).map
        (fun x => if x.id = i then { x with selected := true } else x),
      some i)

theorem lrintQ_nonneg {q : ℚ} (h : 0 ≤ q) : 0 ≤ lrintQ q := by
  unfold lrintQ
  have hf : (0 : ℤ) ≤ ⌊q⌋ := Int.floor_nonneg.mpr h
  split <;> [exact hf; skip]
  split <;> [omega; skip]
  split <;> omega

theorem lrintQ_le {q : ℚ} {m : ℤ} (h : q ≤ (m : ℚ)) : lrintQ q ≤ m := by
  unfold lrintQ
  have hf : ⌊q⌋ ≤ m := by exact_mod_cast (Int.floor_le q).trans h
  have hstep : (1:ℚ)/2 ≤ q - ⌊q⌋ → ⌊q⌋ + 1 ≤ m := by
    intro hr
    have hlt : (⌊q⌋ : ℚ) < q := by
      have : (0:ℚ) < 1/2 := by norm_num
      linarith
    have : (⌊q⌋ : ℚ) < (m : ℚ) := lt_of_lt_of_le hlt h
    exact_mod_cast Int.add_one_le_of_lt (by exact_mod_cast this)
  split
  · exact hf
  · split
    · exact hstep (by linarith)
    · split
      · exact hf
      · exact hstep (by linarith)

/-- unfolding of the position handler when the re-entrancy guard is clear. -/
theorem onUpdatePosition_off (count : ℕ) (maxI : ℤ) (oldFirst : ℕ) (v : ℚ) :
    onUpdatePosition count maxI false oldFirst v =
      if 0 < (count : ℤ) - maxI then
        getLeafIdx count (lrintQ ((1 - v) * (((count : ℤ) - maxI : ℤ) : ℚ)) + 1)
      else 0 := by
  simp [onUpdatePosition]

/-- C1: on a position-signal change with the re-entrancy guard clear, a
laid-out control (`maxItems() ≥ 1`) and a signal value in [0,1], the handler
computes `excess = participatingCount - maxItems()`; when `excess ≤ 0` the
anchor becomes the traversal start, otherwise the anchor becomes the
participating item of 1-based rank `lrint((1 - v) * excess) + 1` (that rank
always names an existing item).  In the flat scenario with 10 leaves and a
4-row viewport, `v = 1` yields leaf 1 and `v = 0` yields leaf 7. -/
theorem claim1_position_signal (count : ℕ) (maxI : ℤ) (oldFirst : ℕ) (v : ℚ)
    (hv0 : 0 ≤ v) (hv1 : v ≤ 1) (hm : 1 ≤ maxI) :
    (((count : ℤ) - maxI ≤ 0 → onUpdatePosition count maxI false oldFirst v = 0) ∧
      (0 < (count : ℤ) - maxI →
        1 ≤ lrintQ ((1 - v) * (((count : ℤ) - maxI : ℤ) : ℚ)) + 1 ∧
        lrintQ ((1 - v) * (((count : ℤ) - maxI : ℤ) : ℚ)) + 1 ≤ (count : ℤ) ∧
        onUpdatePosition count maxI false oldFirst v
          = (lrintQ ((1 - v) * (((count : ℤ) - maxI : ℤ) : ℚ)) + 1 - 1).toNat)) ∧
    onUpdatePosition 10 4 false 0 1 = 0 ∧
    onUpdatePosition 10 4 false 0 0 = 6 := by
  refine ⟨⟨?_, ?_⟩,
    by norm_num [onUpdatePosition, lrintQ, getLeafIdx] <;> decide,
    by norm_num [onUpdatePosition, lrintQ, getLeafIdx] <;> decide⟩
  · intro h
    rw [onUpdatePosition_off, if_neg (by omega)]
  · intro h
    have he0 : (0:ℚ) ≤ (((count : ℤ) - maxI : ℤ) : ℚ) := by exact_mod_cast le_of_lt h
    have hv2 : (0:ℚ) ≤ 1 - v := by linarith
    have hprod0 : 0 ≤ (1 - v) * (((count : ℤ) - maxI : ℤ) : ℚ) := mul_nonneg hv2 he0
    have hprod1 : (1 - v) * (((count : ℤ) - maxI : ℤ) : ℚ)
        ≤ (((count : ℤ) - maxI : ℤ) : ℚ) := by nlinarith
    have hl0 := lrintQ_nonneg hprod0
    have hl1 := lrintQ_le hprod1
    refine ⟨by omega, by omega, ?_⟩
    rw [onUpdatePosition_off, if_pos (by omega)]
    unfold getLeafIdx
    rw [if_pos (by constructor <;> omega)]

theorem claim1_position_signal_witness :
    (0:ℚ) ≤ 0 ∧ (0:ℚ) ≤ 1 ∧ (1:ℤ) ≤ 4 ∧ onUpdatePosition 10 4 false 0 0 = 6 :=
  ⟨le_refl 0, by norm_num, by norm_num,
    (claim1_position_signal 10 4 0 0 (le_refl 0) (by norm_num) (by norm_num)).2.2⟩

theorem walkBack_le (vis : List ItemData) (n : ℕ) : walkBack vis n ≤ n := by
  induction n with
  | zero => simp [walkBack]
  | succ n ih =>
    unfold walkBack
    split
    · omega
    · omega

theorem walkBack_maximal (vis : List ItemData) (n : ℕ) :
    ∀ j, walkBack vis n < j → j ≤ n → (itemAt vis j).deleted = true := by
  induction n with
  | zero => intro j h1 h2; omega
  | succ n ih =>
    intro j h1 h2
    unfold walkBack at h1
    by_cases hd : (itemAt vis (n + 1)).deleted = true
    · rw [if_pos hd] at h1
      rcases Nat.lt_or_ge j (n + 1) with hj | hj
      · exact ih j h1 (by omega)
      · have : j = n + 1 := by omega
        rw [this]; exact hd
    · rw [if_neg hd] at h1
      omega

theorem walkBack_live (vis : List ItemData) (n : ℕ)
    (h : ∃ j, j ≤ n ∧ (itemAt vis j).deleted = false) :
    (itemAt vis (walkBack vis n)).deleted = false := by
  induction n with
  | zero =>
    obtain ⟨j, hj, hl⟩ := h
    have : j = 0 := by omega
    subst this
    simpa [walkBack] using hl
  | succ n ih =>
    unfold walkBack
    by_cases hd : (itemAt vis (n + 1)).deleted = true
    · rw [if_pos hd]
      apply ih
      obtain ⟨j, hj, hl⟩ := h
      refine ⟨j, ?_, hl⟩
      rcases Nat.lt_or_ge j (n + 1) with hj2 | hj2
      · omega
      · exfalso; have : j = n + 1 := by omega
        rw [this] at hl; rw [hl] at hd; exact Bool.false_ne_true hd
    · rw [if_neg hd]
      exact Bool.not_eq_true _ |>.mp hd

/-- C2 counterexample: one delete notification with the whole traversal (and
in particular its start) deleted leaves the anchor on a deleted item,
refuting the claimed invariant that the anchor never references a deleted
item after handling. -/
theorem claim2_anchor_deleted_counterexample :
    (itemAt delListC2 (fixFirstPos delListC2 0)).deleted = true ∧
    fixFirstPos delListC2 0 = 0 := by decide

/-- C2 (amended): after an item-delete notification the anchor is moved to
the nearest live item at or before the old anchor in the participating
traversal when one exists (so it then references no deleted item); when
every item at or before the old anchor is deleted the anchor is reset to the
traversal start, even though that item may itself still be deleted. -/
theorem claim2_anchor_revalidation (vis : List ItemData) (first : ℕ)
    (hf : first < vis.length) :
    ((∃ j, j ≤ first ∧ (itemAt vis j).deleted = false) →
      fixFirstPos vis first ≤ first ∧
      (itemAt vis (fixFirstPos vis first)).deleted = false ∧
      ∀ j, fixFirstPos vis first < j → j ≤ first → (itemAt vis j).deleted = true) ∧
    ((∀ j, j ≤ first → (itemAt vis j).deleted = true) → fixFirstPos vis first = 0) := by
  constructor
  · intro h
    have hlive := walkBack_live vis first h
    have : fixFirstPos vis first = walkBack vis first := by
      unfold fixFirstPos
      rw [if_neg (by rw [hlive]; exact Bool.false_ne_true)]
    rw [this]
    exact ⟨walkBack_le vis first, hlive, walkBack_maximal vis first⟩
  · intro h
    unfold fixFirstPos
    rw [if_pos (h _ (walkBack_le vis first))]

theorem claim2_anchor_revalidation_witness :
    (1 < visW2.length) ∧
    (fixFirstPos visW2 1 ≤ 1 ∧
      (itemAt visW2 (fixFirstPos visW2 1)).deleted = false ∧
      ∀ j, fixFirstPos visW2 1 < j → j ≤ 1 → (itemAt visW2 j).deleted = true) :=
  ⟨by decide,
    (claim2_anchor_revalidation visW2 1 (by decide)).1 ⟨0, by decide, by decide⟩⟩

/-- C3: evaluation of the KEY_DELETE branch at the failing input: every item
at or before `m_pLastSelected` is selected, so `it_sel` (item 1) is itself
removed by the deletion; the force-selection through the dangling reference
selects no surviving item, and the non-empty model ends with zero selected
items, although the claim promises exactly one. -/
theorem claim3_delete_strands_selection :
    keyDelete delInputC3 (some 2)
        = ([{ id := 3, selected := false, expanded := false, deleted := false,
              playing := false }], some 1) ∧
    (keyDelete delInputC3 (some 2)).1 ≠ [] ∧
    ((keyDelete delInputC3 (some 2)).1.filter (fun i => i.selected)).length = 0 := by
  decide

mutual
theorem containsId_ensExp : ∀ (t : VTree) (i j : ℕ),
    containsId (ensExp t i) j = containsId t j
  | .node d cs, i, j => by
    simp only [ensExp, containsId, containsIdL_ensExpL cs i j]
theorem containsIdL_ensExpL : ∀ (cs : VForest) (i j : ℕ),
    containsIdL (ensExpL cs i) j = containsIdL cs j
  | .nil, _, _ => rfl
  | .cons c cs, i, j => by
    simp only [ensExpL, containsIdL, containsId_ensExp c i j,
      containsIdL_ensExpL cs i j]
end

mutual
theorem anc_ensExp : ∀ (t : VTree) (i : ℕ), ancExp (ensExp t i) i = true
  | .node d cs, i => by
    simp only [ensExp, ancExp, containsIdL_ensExpL cs i i]
    by_cases h : containsIdL cs i = true
    · rw [if_pos h]
      simp [h, anc_ensExpL cs i]
    · rw [if_neg h]
theorem anc_ensExpL : ∀ (cs : VForest) (i : ℕ), ancExpL (ensExpL cs i) i = true
  | .nil, _ => rfl
  | .cons c cs, i => by
    simp only [ensExpL, ancExpL, anc_ensExp c i, anc_ensExpL cs i,
      Bool.and_self]
end

mutual
theorem mem_vis_ensExp : ∀ (t : VTree) (i : ℕ), containsId t i = true →
    i ∈ (visOf (ensExp t i)).map (fun x => x.id)
  | .node d cs, i, h => by
    simp only [containsId, Bool.or_eq_true, beq_iff_eq] at h
    rcases h with h | h
    · simp [ensExp, visOf, h]
    · have hmem := mem_vis_ensExpL cs i h
      simp only [ensExp, visOf, h, Bool.or_true, if_true, List.map_cons]
      exact List.mem_cons_of_mem _ hmem
theorem mem_vis_ensExpL : ∀ (cs : VForest) (i : ℕ), containsIdL cs i = true →
    i ∈ (visOfL (ensExpL cs i)).map (fun x => x.id)
  | .nil, i, h => by simp [containsIdL] at h
  | .cons c cs, i, h => by
    simp only [containsIdL, Bool.or_eq_true] at h
    simp only [ensExpL, visOfL, List.map_append, List.mem_append]
    rcases h with h | h
    · exact Or.inl (mem_vis_ensExp c i h)
    · exact Or.inr (mem_vis_ensExpL cs i h)
end

/-- C4 counterexample: five root-level leaves, anchor at rank 3, viewport of
one row, `ensureVisible` on the rank-1 item.  The code writes position 1
(`1 - (rank-1)/(count-1)` at rank 1), while the claimed formula
`1 - rank/(count-1)` gives 3/4 — the written value is not the claimed one. -/
theorem claim4_formula_counterexample :
    (ensureVisible leaves5 3 1 false 1).write = some (false, 1) ∧
    (1 : ℚ) - (rankIn (visOfL (ensExpL leaves5 1)) 1 : ℚ)
        / (((visOfL (ensExpL leaves5 1)).length : ℚ) - 1) = 3/4 ∧
    (1 : ℚ) ≠ 3/4 := by
  have r1 : rankIn (visOfL (ensExpL leaves5 1)) 1 = 1 := by decide
  have r3 : rankIn (visOfL (ensExpL leaves5 1)) 3 = 3 := by decide
  have hl : (visOfL (ensExpL leaves5 1)).length = 5 := by decide
  refine ⟨?_, ?_, by norm_num⟩
  · simp only [ensureVisible, r1, r3, hl]
    norm_num
  · rw [r1, hl]
    norm_num

/-- unfolding of `ensureVisible` with the let-bound indices spelled out. -/
theorem ensureVisible_eq (cs : VForest) (firstId : ℕ) (maxI : ℤ)
    (dontMove : Bool) (itemId : ℕ) :
    ensureVisible cs firstId maxI dontMove itemId =
      if (rankIn (visOfL (ensExpL cs itemId)) itemId : ℤ) - 1
            < (rankIn (visOfL (ensExpL cs itemId)) firstId : ℤ) - 1 ∨
          (rankIn (visOfL (ensExpL cs itemId)) itemId : ℤ) - 1
            > (rankIn (visOfL (ensExpL cs itemId)) firstId : ℤ) - 1 + maxI - 1
      then { forest := ensExpL cs itemId,
             write := some (dontMove,
               1 - (((rankIn (visOfL (ensExpL cs itemId)) itemId : ℤ) - 1 : ℤ) : ℚ)
                 / (((((visOfL (ensExpL cs itemId)).length : ℤ) - 1 : ℤ)) : ℚ)),
             scrolled := true }
      else { forest := ensExpL cs itemId, write := none, scrolled := false } := by
  simp [ensureVisible]

/-- C4 (amended): `ensureVisible(item)` first force-expands every proper
ancestor of the item, so that a present item participates in the traversal;
then, when the item's rank lies outside
`[anchorRank, anchorRank + maxVisibleItems() - 1]`, it writes
`1 - (rank(item) - 1) / (participatingCount - 1)` to the position signal —
the claimed formula has `rank(item)` in place of `rank(item) - 1` — and
returns true; otherwise it changes nothing further and returns false. -/
theorem claim4_ensure_visible (cs : VForest) (firstId : ℕ) (maxI : ℤ)
    (dontMove : Bool) (itemId : ℕ) :
    ancExpL (ensExpL cs itemId) itemId = true ∧
    (containsIdL cs itemId = true →
      itemId ∈ (visOfL (ensExpL cs itemId)).map (fun x => x.id)) ∧
    (((rankIn (visOfL (ensExpL cs itemId)) itemId : ℤ)
          < (rankIn (visOfL (ensExpL cs itemId)) firstId : ℤ) ∨
        (rankIn (visOfL (ensExpL cs itemId)) itemId : ℤ)
          > (rankIn (visOfL (ensExpL cs itemId)) firstId : ℤ) + maxI - 1) →
      (ensureVisible cs firstId maxI dontMove itemId).write
          = some (dontMove,
              1 - ((rankIn (visOfL (ensExpL cs itemId)) itemId : ℚ) - 1)
                / (((visOfL (ensExpL cs itemId)).length : ℚ) - 1)) ∧
      (ensureVisible cs firstId maxI dontMove itemId).scrolled = true) ∧
    (¬ ((rankIn (visOfL (ensExpL cs itemId)) itemId : ℤ)
          < (rankIn (visOfL (ensExpL cs itemId)) firstId : ℤ) ∨
        (rankIn (visOfL (ensExpL cs itemId)) itemId : ℤ)
          > (rankIn (visOfL (ensExpL cs itemId)) firstId : ℤ) + maxI - 1) →
      (ensureVisible cs firstId maxI dontMove itemId).write = none ∧
      (ensureVisible cs firstId maxI dontMove itemId).scrolled = false) := by
  refine ⟨anc_ensExpL cs itemId, mem_vis_ensExpL cs itemId, ?_, ?_⟩
  · intro h
    have hcode : (rankIn (visOfL (ensExpL cs itemId)) itemId : ℤ) - 1
          < (rankIn (visOfL (ensExpL cs itemId)) firstId : ℤ) - 1 ∨
        (rankIn (visOfL (ensExpL cs itemId)) itemId : ℤ) - 1
          > (rankIn (visOfL (ensExpL cs itemId)) firstId : ℤ) - 1 + maxI - 1 := by
      omega
    rw [ensureVisible_eq, if_pos hcode]
    have hval : (1 : ℚ)
          - (((rankIn (visOfL (ensExpL cs itemId)) itemId : ℤ) - 1 : ℤ) : ℚ)
            / (((((visOfL (ensExpL cs itemId)).length : ℤ) - 1 : ℤ)) : ℚ)
        = 1 - ((rankIn (visOfL (ensExpL cs itemId)) itemId : ℚ) - 1)
            / (((visOfL (ensExpL cs itemId)).length : ℚ) - 1) := by
      push_cast
      ring
    exact ⟨by rw [← hval], rfl⟩
  · intro h
    have hcode : ¬ ((rankIn (visOfL (ensExpL cs itemId)) itemId : ℤ) - 1
          < (rankIn (visOfL (ensExpL cs itemId)) firstId : ℤ) - 1 ∨
        (rankIn (visOfL (ensExpL cs itemId)) itemId : ℤ) - 1
          > (rankIn (visOfL (ensExpL cs itemId)) firstId : ℤ) - 1 + maxI - 1) := by
      omega
    rw [ensureVisible_eq, if_neg hcode]
    exact ⟨rfl, rfl⟩

theorem claim4_ensure_visible_witness :
    (ensureVisible treeW4 1 1 false 2).write
        = some (false, 1 - ((rankIn (visOfL (ensExpL treeW4 2)) 2 : ℚ) - 1)
            / (((visOfL (ensExpL treeW4 2)).length : ℚ) - 1)) ∧
    (ensureVisible treeW4 1 1 false 2).scrolled = true :=
  (claim4_ensure_visible treeW4 1 1 false 2).2.2.1 (by decide)

/-- concrete evaluation of `ensureVisible` on three leaves with anchor at
rank 1, a one-row viewport and target rank 3: the guard-clear write of
position 0. -/
theorem evWrite_leaves3 :
    (ensureVisible leaves3 1 1 false 3).write = some (false, 0) := by
  have r1 : rankIn (visOfL (ensExpL leaves3 3)) 1 = 1 := by decide
  have r3 : rankIn (visOfL (ensExpL leaves3 3)) 3 = 3 := by decide
  have hl : (visOfL (ensExpL leaves3 3)).length = 3 := by decide
  rw [ensureVisible_eq, if_pos (by rw [r1, r3]; norm_num)]
  rw [r3, hl]
  norm_num

/-- C6 counterexample: `ensureVisible` (three leaves, anchor rank 1, one-row
viewport, target rank 3) writes the position signal with the re-entrancy
guard still clear, and the position handler therefore does move the anchor
in response to that very write — the claimed "guard is set before every
control-issued write" is false (indeed this unguarded feedback is how
`ensureVisible` scrolls at all). -/
theorem claim6_unguarded_write_counterexample :
    (ensureVisible leaves3 1 1 false 3).write = some (false, 0) ∧
    onUpdatePosition 3 1 false 0 0 = 2 ∧ (2 : ℕ) ≠ 0 := by
  refine ⟨evWrite_leaves3,
    by norm_num [onUpdatePosition, lrintQ, getLeafIdx] <;> decide, by decide⟩

/-- C6 (amended): only the expansion-change fixup write is protected: the
`bChangedPosition` fixup of `handleEvent` sets `m_dontMove` before writing
the position signal (every fixup write event carries guard state true),
while `ensureVisible` issues its scroll write with the guard untouched — in
a state with the guard clear, its write event carries guard state false, so
that write is seen by the position handler. -/
theorem claim6_reentrancy_guard (vis : List ItemData) (firstId : ℕ)
    (cs : VForest) (f : ℕ) (maxI : ℤ) (itemId : ℕ) :
    (fixupPosition vis firstId).1 = true ∧
    (∀ g : Bool, ∀ v : ℚ,
      (ensureVisible cs f maxI false itemId).write = some (g, v) → g = false) := by
  refine ⟨rfl, ?_⟩
  intro g v h
  rw [ensureVisible_eq] at h
  by_cases hc : (rankIn (visOfL (ensExpL cs itemId)) itemId : ℤ) - 1
        < (rankIn (visOfL (ensExpL cs itemId)) f : ℤ) - 1 ∨
      (rankIn (visOfL (ensExpL cs itemId)) itemId : ℤ) - 1
        > (rankIn (visOfL (ensExpL cs itemId)) f : ℤ) - 1 + maxI - 1
  · rw [if_pos hc] at h
    have h2 : (false, 1 - (((rankIn (visOfL (ensExpL cs itemId)) itemId : ℤ) - 1 : ℤ) : ℚ)
          / (((((visOfL (ensExpL cs itemId)).length : ℤ) - 1 : ℤ)) : ℚ)) = (g, v) := by
      exact Option.some.inj h
    have := congrArg Prod.fst h2
    simpa using this.symm
  · rw [if_neg hc] at h
    exact absurd h (by simp)

theorem claim6_reentrancy_guard_witness :
    (fixupPosition visW2 1).1 = true ∧ (false : Bool) = false :=
  ⟨(claim6_reentrancy_guard visW2 1 leaves3 1 1 3).1,
    (claim6_reentrancy_guard visW2 1 leaves3 1 1 3).2 false 0 evWrite_leaves3⟩

/-- C5 counterexample: with a cached frame present, a rebuild without
geometry leaves an empty cache (the old frame was destroyed first), not the
previous frame; and when `drawString` fails on the second row, the
half-drawn new frame (first row only, incomplete) is committed as the cache
— neither "previous cache retained" nor "no frame produced" holds. -/
theorem claim5_cache_counterexample :
    makeImage (some ([42], true)) none renderOkP [mkItem 1] = none ∧
    makeImage (some ([42], true)) none renderOkP [mkItem 1] ≠ some ([42], true) ∧
    makeImage (some ([42], true)) (some 10) renderFailP [mkItem 1, mkItem 2]
        = some ([1], false) ∧
    (some ([1], false) : Option (List ℕ × Bool)) ≠ none ∧
    (some ([(1 : ℕ)], false) : Option (List ℕ × Bool)) ≠ some ([42], true) := by
  decide

/-- C5 (amended): every rebuild destroys the previous cache first: without
geometry the rebuild leaves no cache at all (the old frame is not
retained); the result never depends on the previous cache; with geometry a
frame is always committed; and a failed `drawString` on a row inside the
viewport aborts the build at that row with the incomplete frame flag — the
partial frame, not the previous cache, is what survives. -/
theorem claim5_frame_rebuild (old old2 : Option (List ℕ × Bool)) (g : ℕ)
    (p : RenderParams) (xs : List ItemData) (x : ItemData)
    (rest : List ItemData) (y : ℤ) :
    makeImage old none p xs = none ∧
    makeImage old (some g) p xs = makeImage old2 (some g) p xs ∧
    (makeImage old (some g) p xs).isSome = true ∧
    (y < (g : ℤ) → p.textOk x.id = false →
      drawRows p g (x :: rest) y = ([], false)) := by
  refine ⟨rfl, rfl, rfl, ?_⟩
  intro hy ht
  simp [drawRows, rowStep, hy, ht]

theorem claim5_frame_rebuild_witness :
    drawRows renderFailP 10 [mkItem 2] 0 = ([], false) :=
  (claim5_frame_rebuild none none 10 renderFailP [] (mkItem 2) [] 0).2.2.2
    (by norm_num) (by decide)

theorem stepFwd_spec (n : ℕ) :
    ∀ (k idx : ℕ), idx < n →
      (stepFwd n idx k).1 = min (idx + k) (n - 1) ∧
      ((stepFwd n idx k).2 = true ↔ 0 < k ∧ idx + 1 < n)
  | 0, idx, h => by
    simp only [stepFwd]
    constructor
    · omega
    · simp
  | k + 1, idx, h => by
    unfold stepFwd
    by_cases hn : n ≤ idx + 1
    · rw [if_pos hn]
      constructor
      · simp only
        omega
      · simp only [Bool.false_eq_true, false_iff]
        omega
    · rw [if_neg hn]
      have ih := stepFwd_spec n k (idx + 1) (by omega)
      constructor
      · simp only [ih.1]
        omega
      · simp only [true_iff]
        omega

/-- C7 counterexample: with viewport capacity 4 the page-down loop advances
the iterator 7 times (`(int)(4 * 1.5)` down to 0 inclusive), not the
claimed `1.5 × maxVisibleItems() = 6` — from anchor rank 1 `ensureVisible`
is called on the rank-8 item, not on rank 7 = 1 + floor(1.5 × 4). -/
theorem claim7_walk_counterexample :
    (stepFwd 20 0 (pagedownCount 4)).1 = 7 ∧ (7 : ℕ) ≠ 3 * 4 / 2 := by
  decide

/-- C7 (amended): the page-down key walks the traversal forward from the
anchor by `floor(1.5 × maxVisibleItems()) + 1` items — one more than the
claimed `1.5 × maxVisibleItems()` — stopping early at the traversal end,
and calls `ensureVisible` on the reached item; in the scenario (anchor at
rank 1, capacity 4, 20 participating items) the walk reaches rank 8, and
the position round-trip through the unguarded write then puts the anchor at
rank 7 (0-based index 6), as the claimed scenario states. -/
theorem claim7_pagedown (n idx : ℕ) (maxI : ℤ) (h : idx < n) :
    (stepFwd n idx (pagedownCount maxI)).1
        = min (idx + pagedownCount maxI) (n - 1) ∧
    ((stepFwd n idx (pagedownCount maxI)).2 = true ↔
      0 < pagedownCount maxI ∧ idx + 1 < n) ∧
    pagedownCount 4 = 7 ∧
    pagedownAnchor 20 0 4 = 6 := by
  refine ⟨(stepFwd_spec n (pagedownCount maxI) idx h).1,
    (stepFwd_spec n (pagedownCount maxI) idx h).2, by decide, ?_⟩
  have h1 : stepFwd 20 0 (pagedownCount 4) = (7, true) := by decide
  simp only [pagedownAnchor, h1]
  norm_num [ensureVisibleFlat]
  norm_num [onUpdatePosition_off, lrintQ, getLeafIdx]
  decide

theorem claim7_pagedown_witness : pagedownAnchor 20 0 4 = 6 :=
  (claim7_pagedown 20 0 4 (by norm_num)).2.2.2

theorem findItemAtPos_eq (xs : List ItemData) :
    ∀ k : ℕ, findItemAtPos xs k = xs.get? k := by
  induction xs with
  | nil => intro k; cases k <;> simp [findItemAtPos]
  | cons x rest ih =>
    intro k
    cases k with
    | zero => simp [findItemAtPos]
    | succ k => simp [findItemAtPos, ih k]

theorem drawRest_live (p : RenderParams) (hgt : ℕ) :
    ∀ (xs : List ItemData) (y : ℤ) (i : ℕ),
      i ∈ (drawRest p hgt xs y).1 →
      ∃ x, x ∈ xs ∧ x.id = i ∧ x.deleted = false
  | [], y, i, hi => by simp [drawRest] at hi
  | x :: rest, y, i, hi => by
    unfold drawRest at hi
    by_cases hd : x.deleted = true
    · rw [if_pos hd] at hi
      obtain ⟨z, hm, he, hl⟩ := drawRest_live p hgt rest y i hi
      exact ⟨z, List.mem_cons_of_mem _ hm, he, hl⟩
    · rw [if_neg hd] at hi
      rcases hr : rowStep p hgt x y with b | y2
      · rw [hr] at hi
        simp at hi
      · rw [hr] at hi
        simp only [List.mem_cons] at hi
        rcases hi with h1 | h1
        · exact ⟨x, List.mem_cons_self x rest, h1.symm,
            Bool.not_eq_true _ |>.mp hd⟩
        · obtain ⟨z, hm, he, hl⟩ := drawRest_live p hgt rest y2 i h1
          exact ⟨z, List.mem_cons_of_mem _ hm, he, hl⟩

/-- C8 counterexample: hit testing (`findItemAtPos`) performs no
deleted-skip at all: one row below a live anchor it returns the deleted
item; and `makeImage` draws the anchor row even when the anchor item is
deleted — both refute "no operation ever renders or hit-tests to a deleted
item". -/
theorem claim8_deleted_hit_counterexample :
    findItemAtPos [mkItem 1, { mkItem 2 with deleted := true }] 1
        = some { mkItem 2 with deleted := true } ∧
    ({ mkItem 2 with deleted := true } : ItemData).deleted = true ∧
    (drawRows renderOkP 10 [{ mkItem 7 with deleted := true }] 0).1 = [7] := by
  decide

/-- C8 (amended): the renderer skips deleted items only while advancing from
one row to the next, so every drawn row after the first corresponds to a
live item, but the anchor row itself is drawn without a deleted check; and
hit testing does not skip deleted items at all — `findItemAtPos` returns
the raw `pos`-th traversal item from the anchor. -/
theorem claim8_deleted_skip (xs : List ItemData) (k : ℕ) (p : RenderParams)
    (hgt : ℕ) (ys : List ItemData) (y : ℤ) (x : ItemData)
    (rest : List ItemData) :
    findItemAtPos xs k = xs.get? k ∧
    (∀ i : ℕ, i ∈ (drawRest p hgt ys y).1 →
      ∃ z, z ∈ ys ∧ z.id = i ∧ z.deleted = false) ∧
    ((drawRows p hgt (x :: rest) y).1 ≠ [] →
      (drawRows p hgt (x :: rest) y).1.head? = some x.id) := by
  refine ⟨findItemAtPos_eq xs k, drawRest_live p hgt ys y, ?_⟩
  intro hne
  simp only [drawRows] at hne ⊢
  rcases hr : rowStep p hgt x y with b | y2
  · rw [hr] at hne
    simp at hne
  · simp

theorem claim8_deleted_skip_witness :
    (drawRows renderOkP 10 [mkItem 3] 0).1.head? = some (mkItem 3).id :=
  (claim8_deleted_skip [] 0 renderOkP 10 [] 0 (mkItem 3) []).2.2 (by decide)

theorem rangeSelectGo_symm (c l : Option ℕ) :
    ∀ (s : Bool) (xs : List ItemData),
      rangeSelectGo c l s xs = rangeSelectGo l c s xs
  | _, [] => rfl
  | s, x :: rest => by
    have hcomm : (c == some x.id || l == some x.id)
        = (l == some x.id || c == some x.id) := Bool.or_comm _ _
    simp only [rangeSelectGo, hcomm]
    exact congrArg _ (rangeSelectGo_symm c l _ rest)

theorem rangeSelectGo_nohit (c l : Option ℕ) :
    ∀ (u : List ItemData), (∀ x ∈ u, ¬c = some x.id ∧ ¬l = some x.id) →
      ∀ (s : Bool) (v : List ItemData),
        rangeSelectGo c l s (u ++ v)
          = u.map (fun x => { x with selected := s }) ++ rangeSelectGo c l s v
  | [], _, _, v => by simp
  | x :: u, h, s, v => by
    have hx := h x (List.mem_cons_self x u)
    have hhit : (c == some x.id || l == some x.id) = false := by
      have h1 : (c == some x.id) = false := by
        cases hc2 : c == some x.id
        · rfl
        · exact absurd (eq_of_beq hc2) hx.1
      have h2 : (l == some x.id) = false := by
        cases hl2 : l == some x.id
        · rfl
        · exact absurd (eq_of_beq hl2) hx.2
      rw [h1, h2]
      rfl
    simp only [List.cons_append, rangeSelectGo, hhit, Bool.false_eq_true,
      if_false, List.map_cons]
    exact congrArg _
      (rangeSelectGo_nohit c l u (fun z hz => h z (List.mem_cons_of_mem x hz)) s v)

/-- C9 counterexample: when the two range endpoints coincide (`itClicked`
is also `m_pLastSelected`, here item 1), the range never closes and the
shift-click loop selects every item from the endpoint to the traversal end:
item 2 lies outside the inclusive range between the endpoints yet ends up
selected, refuting "all items outside that range are deselected" for every
pair of participating items. -/
theorem claim9_equal_endpoints_counterexample :
    rangeSelectGo (some 1) (some 1) false [mkItem 1, mkItem 2]
        = [{ mkItem 1 with selected := true }, { mkItem 2 with selected := true }]
      ∧ ({ mkItem 2 with selected := true } : ItemData).selected = true := by
  decide

/-- C9 (amended): for two distinct participating boundary items (the
traversal decomposing as `u ++ xA :: v ++ xB :: w` with the boundary ids
`a`, `b` on `xA`, `xB` in either order and nowhere else), the shift-click
range extension selects exactly the items of the inclusive range between
the two boundaries and deselects everything outside it; and the operation
is symmetric: anchoring at `a` and hitting `b` yields the same list as
anchoring at `b` and hitting `a`. -/
theorem claim9_range_select (a b : ℕ) (u v w : List ItemData)
    (xA xB : ItemData)
    (hu : ∀ x ∈ u, x.id ≠ a ∧ x.id ≠ b)
    (hv : ∀ x ∈ v, x.id ≠ a ∧ x.id ≠ b)
    (hw : ∀ x ∈ w, x.id ≠ a ∧ x.id ≠ b)
    (hAB : xA.id = a ∧ xB.id = b ∨ xA.id = b ∧ xB.id = a) :
    rangeSelectGo (some a) (some b) false (u ++ (xA :: (v ++ (xB :: w))))
        = (u.map fun x => { x with selected := false })
          ++ ({ xA with selected := true }
            :: ((v.map fun x => { x with selected := true })
              ++ ({ xB with selected := true }
                :: (w.map fun x => { x with selected := false })))) ∧
    rangeSelectGo (some a) (some b) false (u ++ (xA :: (v ++ (xB :: w))))
        = rangeSelectGo (some b) (some a) false (u ++ (xA :: (v ++ (xB :: w)))) := by
  have convert_hyp : ∀ (z : List ItemData), (∀ x ∈ z, x.id ≠ a ∧ x.id ≠ b) →
      ∀ x ∈ z, ¬(some a : Option ℕ) = some x.id ∧ ¬(some b : Option ℕ) = some x.id := by
    intro z hz x hx
    have h2 := hz x hx
    refine ⟨fun hEq => h2.1 ?_, fun hEq => h2.2 ?_⟩ <;>
      (injection hEq with h3; exact h3.symm)
  refine ⟨?_, rangeSelectGo_symm (some a) (some b) false _⟩
  rw [rangeSelectGo_nohit (some a) (some b) u (convert_hyp u hu) false
    (xA :: (v ++ (xB :: w)))]
  have hitA : ((some a : Option ℕ) == some xA.id
      || (some b : Option ℕ) == some xA.id) = true := by
    rcases hAB with ⟨h1, _⟩ | ⟨h1, _⟩ <;> simp [h1]
  refine congrArg _ ?_
  simp only [rangeSelectGo, hitA, if_true, Bool.false_eq_true, if_false]
  rw [rangeSelectGo_nohit (some a) (some b) v (convert_hyp v hv) true (xB :: w)]
  refine congrArg _ ?_
  have hitB : ((some a : Option ℕ) == some xB.id
      || (some b : Option ℕ) == some xB.id) = true := by
    rcases hAB with ⟨_, h1⟩ | ⟨_, h1⟩ <;> simp [h1]
  refine congrArg _ ?_
  simp only [rangeSelectGo, hitB, if_true, Bool.true_eq_false, if_false]
  refine congrArg _ ?_
  have := rangeSelectGo_nohit (some a) (some b) w (convert_hyp w hw) false []
  simpa [rangeSelectGo] using this

theorem claim9_range_select_witness :
    rangeSelectGo (some 1) (some 2) false
        ([] ++ (mkItem 1 :: ([] ++ (mkItem 2 :: [mkItem 3]))))
        = ([] : List ItemData)
          ++ ({ mkItem 1 with selected := true }
            :: (([] : List ItemData)
              ++ ({ mkItem 2 with selected := true }
                :: [{ mkItem 3 with selected := false }]))) ∧
    rangeSelectGo (some 1) (some 2) false
        ([] ++ (mkItem 1 :: ([] ++ (mkItem 2 :: [mkItem 3]))))
        = rangeSelectGo (some 2) (some 1) false
            ([] ++ (mkItem 1 :: ([] ++ (mkItem 2 :: [mkItem 3])))) := by
  have h := claim9_range_select 1 2 [] [] [mkItem 3] (mkItem 1) (mkItem 2)
    (by simp) (by simp) (by decide) (by decide)
  exact ⟨by simpa using h.1, h.2⟩

/-- C10: the shift-click range extension and the ctrl+shift-click range
toggle leave `m_pLastSelected` unchanged, while a plain click or a
ctrl-click that hits an item updates it to the hit item — so a subsequent
range operation still measures from the original anchor after a shift or
ctrl+shift click. -/
theorem claim10_last_selected (xs : List ItemData) (lastSel clickId : Option ℕ) :
    (shiftClickBranch xs lastSel clickId).2 = lastSel ∧
    (ctrlShiftClickBranch xs lastSel clickId).2 = lastSel ∧
    (∀ i : ℕ, clickId = some i →
      (plainClickBranch xs lastSel clickId).2 = some i ∧
      (ctrlClickBranch xs lastSel clickId).2 = some i) := by
  refine ⟨rfl, rfl, ?_⟩
  intro i h
  subst h
  exact ⟨rfl, rfl⟩

theorem claim10_last_selected_witness :
    (plainClickBranch [mkItem 1] (some 9) (some 1)).2 = some 1 ∧
    (ctrlClickBranch [mkItem 1] (some 9) (some 1)).2 = some 1 :=
  (claim10_last_selected [mkItem 1] (some 9) (some 1)).2.2 1 rfl
